import Mathlib

/-!
# Verification of the kvdex collection / secondary-indexing engine

A shallow embedding of the kvdex document-collection layer in Lean 4.

The key codec and the `flatten` utility are translated directly from
`src/utils.ts`.  The collection engine, the indexable-collection engine,
the atomic operation builder, the cursor-based enumeration algorithm and
the queue integration are modelled from the specification, since only
their tests and documentation ship in this snapshot of the repository.
-/

set_option maxHeartbeats 1000000

namespace Kvdex

/-- A store key part / primitive KV value: the store orders key parts per
type then positionally; strings and integers suffice for the embedding. -/
inductive KvLit where
  | str (s : String)
  | num (n : Int)
deriving DecidableEq, Repr

/-- A key part, as used for document ids and index values. -/
abbrev KvKeyPart := KvLit

/-- A composite store key: an ordered sequence of key parts. -/
abbrev KvKey := List KvLit

/-- From `src/utils.ts`: `getDocumentKey(collectionKey, id)` returns
`[...collectionKey, id]` — the collection root with the id appended. -/
def getDocumentKey (collectionKey : KvKey) (id : KvKeyPart) : KvKey :=
  collectionKey ++ [id]

/-- From `src/utils.ts`: `getDocumentId(key)` returns `key.at(-1)` — the
last key part, or `undefined` (here `none`) on an empty key. -/
def getDocumentId (key : KvKey) : Option KvKeyPart :=
  key.getLast?

/-- A first-layer KV object: an association list of named fields with
unique keys, as a JavaScript object literal. -/
abbrev KvObject := List (String × KvLit)

/-- First-match lookup of a field in a `KvObject`, as JavaScript property
access on an object with unique keys. -/
def objGet (o : KvObject) (k : String) : Option KvLit :=
  (o.find? (fun p => p.1 = k)).map (·.2)

/-- Overwrite the binding of `k` in an object (in place, preserving entry
order), or append it when absent — the effect of a later spread entry
`{...o, k: v}` on a JavaScript object. -/
def setKey : KvObject → String → KvLit → KvObject
  | [], k, v => [(k, v)]
  | p :: rest, k, v =>
    if p.1 = k then (k, v) :: rest else p :: setKey rest k v

/-- Object spread `{...a, ...b}`: entries of `b` override same-named
entries of `a`, appended otherwise. -/
def objSpread (a b : KvObject) : KvObject :=
  b.foldl (fun acc p => setKey acc p.1 p.2) a

/-- A stored document: id, store-assigned versionstamp, and value.
The shape `{ id, versionstamp, value }` is fixed by the README. -/
structure Document where
  id : KvLit
  versionstamp : String
  value : KvObject
deriving DecidableEq, Repr

/-- From `src/utils.ts`: `flatten(document)` destructures
`const { value, ...rest } = document` and returns `{ ...value, ...rest }`,
so the metadata entries `id` and `versionstamp` are spread after the
value's own entries. -/
def flatten (document : Document) : KvObject :=
  objSpread document.value
    [("id", document.id), ("versionstamp", KvLit.str document.versionstamp)]

/-- Modelled from the spec: the index specification maps a field name of
the document's value type to an index kind, either `primary` (at most one
document may hold a given field value) or `secondary` (many documents may
share a field value).  The engine source is absent from this snapshot. -/
inductive IndexKind where
  | primary
  | secondary
deriving DecidableEq, Repr

/-- Modelled from the spec: the index specification of an indexable
collection. -/
abbrev IndexSpec := List (String × IndexKind)

/-- Modelled from the spec: an index entry is a store record keyed by
`(collection root, index-kind prefix, field name, field value[, id])`
whose value contains the owning document's id.  The embedding keeps the
key components as explicit record fields. -/
structure IndexEntry where
  field : String
  value : KvLit
  ownerId : Nat
deriving DecidableEq, Repr

/-- Modelled from the spec: the per-collection slice of the store —
document entries (keyed by id under the id prefix, in key order) plus the
primary- and secondary-index entry lists.  Document ids are embedded as
naturals, matching the store's total order on key parts. -/
structure CollectionState where
  docs : List (Nat × KvObject)
  primaryIndex : List IndexEntry
  secondaryIndex : List IndexEntry
deriving DecidableEq, Repr

/-- The empty collection slice. -/
def emptyCollection : CollectionState := ⟨[], [], []⟩

/-- Modelled from the spec: the id-generation strategy owned by the
collection; the embedding generates a fresh id strictly above every
stored id. -/
def freshId (st : CollectionState) : Nat :=
  (st.docs.map (·.1)).foldr max 0 + 1

/-- Modelled from the spec: before committing an `add`/`set` that
introduces a primary-indexed field value, the builder stages a check that
no existing index entry occupies that field value. -/
def primaryCollision (spec : IndexSpec) (st : CollectionState)
    (v : KvObject) : Bool :=
  spec.any (fun fk =>
    fk.2 = IndexKind.primary &&
      match objGet v fk.1 with
      | none => false
      | some w => st.primaryIndex.any (fun e => e.field = fk.1 && e.value = w))

/-- Modelled from the spec: on `add`/`set`, for every indexed field of the
given kind present on the value, derive its index entry; absent optional
fields produce no entry. -/
def indexEntriesFor (spec : IndexSpec) (kind : IndexKind) (id : Nat)
    (v : KvObject) : List IndexEntry :=
  spec.filterMap (fun fk =>
    if fk.2 = kind then (objGet v fk.1).map (fun w => ⟨fk.1, w, id⟩)
    else none)

/-- Result of a single-document commit: ok flag and the document id. -/
structure CommitResult where
  ok : Bool
  id : Nat
deriving DecidableEq, Repr

/-- Modelled from the spec: `add` with an explicit id — one atomic commit
staging the document `set` together with a `set` of every derived index
entry, rejected as a whole (state unchanged) on a primary-index
collision. -/
def addWithId (spec : IndexSpec) (st : CollectionState) (id : Nat)
    (v : KvObject) : CommitResult × CollectionState :=
  if primaryCollision spec st v then (⟨false, id⟩, st)
  else
    (⟨true, id⟩,
      ⟨st.docs ++ [(id, v)],
        st.primaryIndex ++ indexEntriesFor spec IndexKind.primary id v,
        st.secondaryIndex ++ indexEntriesFor spec IndexKind.secondary id v⟩)

/-- Modelled from the spec: `add` generates a fresh id for the document
and commits it with its index entries. -/
def add (spec : IndexSpec) (st : CollectionState) (v : KvObject) :
    CommitResult × CollectionState :=
  addWithId spec st (freshId st) v

/-- Modelled from the spec: sequential staging of a bulk add; `none` when
some document's commit is rejected. -/
def addAll (spec : IndexSpec) : CollectionState → List KvObject →
    Option CollectionState
  | st, [] => some st
  | st, v :: rest =>
    let r := add spec st v
    if r.1.ok then addAll spec r.2 rest else none

/-- Modelled from the spec: bulk `addMany` — all documents are added, or
the operation fails with no effect. -/
def addMany (spec : IndexSpec) (st : CollectionState) (vs : List KvObject) :
    Bool × CollectionState :=
  match addAll spec st vs with
  | some st' => (true, st')
  | none => (false, st)

/-- Modelled from the spec: `count` returns the number of documents
currently stored in the collection. -/
def count (st : CollectionState) : Nat :=
  st.docs.length

/-- Modelled from the spec: `findByPrimaryIndex(field, value)` reads the
index entry for that field value directly and dereferences the owning
document id; `none` when no entry exists. -/
def findByPrimaryIndex (st : CollectionState) (f : String) (w : KvLit) :
    Option (Nat × KvObject) :=
  match st.primaryIndex.find? (fun e => e.field = f && e.value = w) with
  | none => none
  | some e => st.docs.find? (fun p => p.1 = e.ownerId)

/-- Modelled from the spec: `findBySecondaryIndex(field, value)`
range-scans the secondary index prefix `(field, value)` and dereferences
each matched document id. -/
def findBySecondaryIndex (st : CollectionState) (f : String) (w : KvLit) :
    List (Nat × KvObject) :=
  (st.secondaryIndex.filter (fun e => e.field = f && e.value = w)).filterMap
    (fun e => st.docs.find? (fun p => p.1 = e.ownerId))

/-- Modelled from the spec: options of the shared enumeration algorithm —
`startId`/`endId` bound the logical range `[startId, endId)`, `reverse`
swaps scan direction, `limit` caps accepted entries, `cursor` resumes a
previous scan, and `filter` is a pure predicate over decoded documents. -/
structure ListOptions (α : Type) where
  startId : Option Nat
  endId : Option Nat
  limit : Option Nat
  reverse : Bool
  cursor : Option Nat
  filter : Nat × α → Bool

/-- Result of a multi-document read: the documents plus a cursor encoding
the next unvisited key when the scan stopped early due to `limit`. -/
structure ListResult (α : Type) where
  result : List (Nat × α)
  cursor : Option Nat
deriving DecidableEq, Repr

/-- Membership of an id in the effective key range `[startId, endId)`
(start inclusive, end exclusive); an absent bound does not constrain. -/
def inRange (startId endId : Option Nat) (id : Nat) : Bool :=
  (match startId with
   | none => true
   | some s => decide (s ≤ id)) &&
  (match endId with
   | none => true
   | some e => decide (id < e))

/-- The opaque cursor encoding the next unvisited key of a stream: the id
of its head, or `none` when the range is exhausted. -/
def nextCursor {α : Type} : List (Nat × α) → Option Nat
  | [] => none
  | p :: _ => some p.1

/-- Modelled from the spec: stream entries in order, counting only
entries accepted by the filter toward the limit, and stop after `limit`
accepted entries or when the range is exhausted — returning the cursor of
the next unvisited key in the former case. -/
def scanGo {α : Type} (pred : Nat × α → Bool) :
    List (Nat × α) → Nat → List (Nat × α) × Option Nat
  | l, 0 => ([], nextCursor l)
  | [], _ + 1 => ([], none)
  | p :: rest, n + 1 =>
    if pred p then
      let r := scanGo pred rest n
      (p :: r.1, r.2)
    else
      scanGo pred rest (n + 1)

/-- The effective lower bound of a resumed scan: the cursor takes
precedence over the caller's `startId` for continuation. -/
def cursorOrStart (cursor startId : Option Nat) : Option Nat :=
  match cursor with
  | some c => some c
  | none => startId

/-- Modelled from the spec: the shared enumeration algorithm of all
multi-document reads — determine the key range (the cursor takes
precedence over `startId` and remains bounded by `endId`), stream the
range in key order (descending when `reverse`), filter, and cap at
`limit` with a continuation cursor. -/
def getMany {α : Type} (opts : ListOptions α) (docs : List (Nat × α)) :
    ListResult α :=
  let start := cursorOrStart opts.cursor opts.startId
  let ranged := docs.filter (fun p => inRange start opts.endId p.1)
  let stream := if opts.reverse then ranged.reverse else ranged
  match opts.limit with
  | none => ⟨stream.filter opts.filter, none⟩
  | some n =>
    let r := scanGo opts.filter stream n
    ⟨r.1, r.2⟩

/-- Modelled from the spec: a caller aggregates a limited scan by
resuming from the returned cursor until the cursor is exhausted; `fuel`
bounds the number of rounds. -/
def paginate {α : Type} (docs : List (Nat × α)) (pred : Nat × α → Bool)
    (limit : Nat) : Nat → Option Nat → List (Nat × α)
  | 0, _ => []
  | fuel + 1, cursor =>
    let r := getMany ⟨none, none, some limit, false, cursor, pred⟩ docs
    match r.cursor with
    | none => r.result
    | some c => r.result ++ paginate docs pred limit fuel (some c)

/-- Modelled from the spec: `findBySecondaryIndex` applies the same
limit/cursor options as collection scans — the paged variant aggregates
pages over the secondary index prefix `(field, value)` and dereferences
each matched owner id. -/
def findBySecondaryIndexPaged (st : CollectionState) (f : String)
    (w : KvLit) (limit fuel : Nat) : List (Nat × KvObject) :=
  (paginate
      ((st.secondaryIndex.filter (fun e => e.field = f && e.value = w)).map
        (fun e => (e.ownerId, e)))
      (fun _ => true) limit fuel none).filterMap
    (fun p => st.docs.find? (fun q => q.1 = p.2.ownerId))

/-- Ids of a document list are strictly increasing, the key-order
invariant of a collection's slice of the store. -/
abbrev SortedIds {α : Type} (l : List (Nat × α)) : Prop :=
  l.Pairwise (fun p q => p.1 < q.1)

/-- Index entries reference only ids of stored documents — the spec's
invariant that an index entry exists only if the owning document
exists. -/
abbrev WF (st : CollectionState) : Prop :=
  (∀ e ∈ st.primaryIndex, ∃ p ∈ st.docs, p.1 = e.ownerId) ∧
    (∀ e ∈ st.secondaryIndex, ∃ p ∈ st.docs, p.1 = e.ownerId)

/-- Modelled from the spec: a staged mutation of the atomic operation
builder, tagged with its owning collection context.  (`sum` mutations
apply only to numeric-valued collections, which the object-valued
embedding does not include; no claim concerns them.) -/
inductive StagedMutation where
  | setOp (coll : String) (id : Nat) (v : KvObject)
  | delOp (coll : String) (id : Nat)
deriving DecidableEq, Repr

/-- Modelled from the spec: a staged version-check constraint — the
commit fails if the targeted key's current versionstamp differs from the
one supplied; versionstamp `none` asserts the key is absent. -/
structure StagedCheck where
  coll : String
  id : Nat
  versionstamp : Option Nat
deriving DecidableEq, Repr

/-- Modelled from the spec: the atomic operation builder's accumulator —
an ordered list of pending mutations plus a list of check
constraints. -/
structure AtomicOperation where
  ops : List StagedMutation
  checks : List StagedCheck
deriving DecidableEq, Repr

/-- The empty builder state. -/
def atomicEmpty : AtomicOperation := ⟨[], []⟩

/-- Modelled from the spec: `set(id, value)` appends a staged set against
the current collection context. -/
def atomicSet (a : AtomicOperation) (coll : String) (id : Nat)
    (v : KvObject) : AtomicOperation :=
  ⟨a.ops ++ [StagedMutation.setOp coll id v], a.checks⟩

/-- Modelled from the spec: `delete(id)` appends a staged delete against
the current collection context. -/
def atomicDelete (a : AtomicOperation) (coll : String) (id : Nat) :
    AtomicOperation :=
  ⟨a.ops ++ [StagedMutation.delOp coll id], a.checks⟩

/-- Modelled from the spec: `check(document)` appends a version
constraint. -/
def atomicCheck (a : AtomicOperation) (c : StagedCheck) : AtomicOperation :=
  ⟨a.ops, a.checks ++ [c]⟩

/-- A store record for the atomic-commit model: collection context, id,
value and store-assigned versionstamp. -/
structure StoreEntry where
  coll : String
  id : Nat
  value : KvObject
  versionstamp : Nat
deriving DecidableEq, Repr

/-- The flat multi-collection store the atomic builder commits to. -/
abbrev Store := List StoreEntry

/-- Modelled from the spec: a check passes when the targeted key's
current versionstamp equals the supplied one (`none` matching an absent
key). -/
def checkPasses (store : Store) (c : StagedCheck) : Bool :=
  match store.find? (fun e => e.coll = c.coll && e.id = c.id),
      c.versionstamp with
  | some e, some v => e.versionstamp = v
  | none, none => true
  | _, _ => false

/-- Apply one staged mutation; `vs` is the versionstamp the store assigns
to this commit's writes. -/
def applyMutation (vs : Nat) (store : Store) : StagedMutation → Store
  | StagedMutation.setOp c i v =>
    store.filter (fun e => !(e.coll = c && e.id = i)) ++ [⟨c, i, v, vs⟩]
  | StagedMutation.delOp c i =>
    store.filter (fun e => !(e.coll = c && e.id = i))

/-- Modelled from the spec: the store applies all staged mutations or
none, conditioned on all checks passing. -/
def submit (vs : Nat) (a : AtomicOperation) (store : Store) :
    Bool × Store :=
  if a.checks.all (checkPasses store) then
    (true, a.ops.foldl (applyMutation vs) store)
  else
    (false, store)

/-- Modelled from the spec: detects a chain that both deletes and writes
the same document id within the same collection. -/
def hasIdCollision (ops : List StagedMutation) : Bool :=
  ops.any (fun o =>
    match o with
    | StagedMutation.delOp c i =>
      ops.any (fun o' =>
        match o' with
        | StagedMutation.setOp c' i' _ => c = c' && i = i'
        | _ => false)
    | _ => false)

/-- Modelled from the spec: `commit()` performs local validation (the
id-collision rule) and only then submits the staged ops and checks as one
store commit; a locally rejected chain never reaches the store. -/
def commit (vs : Nat) (a : AtomicOperation) (store : Store) :
    Bool × Store :=
  if hasIdCollision a.ops then (false, store)
  else submit vs a store

/-- Modelled from the spec: the handler id is deterministically derived
from the collection root key plus the optional topic; the opaque derived
string is embedded as the pair it encodes. -/
def createHandlerId (key : KvKey) (topic : Option String) :
    KvKey × Option String :=
  (key, topic)

/-- Modelled from the spec: a queue message wraps the serialized payload
(`__data__`) with the derived handler id (`__handlerId__`). -/
structure QueueMessage where
  handlerId : KvKey × Option String
  data : String
deriving DecidableEq, Repr

/-- Modelled from the spec: `enqueue(data, {topic})` wraps the payload
with the handler id derived from the collection root key and topic. -/
def enqueue (root : KvKey) (topic : Option String) (data : String) :
    QueueMessage :=
  ⟨createHandlerId root topic, data⟩

/-- Modelled from the spec: the decode-and-dispatch wrapper registered by
`listenQueue` invokes the callback exactly on messages whose handler id
matches its own derivation; `none` means the message is ignored, not
consumed. -/
def dispatch (root : KvKey) (topic : Option String) (msg : QueueMessage) :
    Option String :=
  if msg.handlerId = createHandlerId root topic then some msg.data
  else none

theorem objGet_setKey_same (o : KvObject) (k : String) (v : KvLit) :
    objGet (setKey o k v) k = some v := by
  induction o with
  | nil => simp [setKey, objGet, List.find?]
  | cons p rest ih =>
    by_cases h : p.1 = k
    · simp [setKey, h, objGet, List.find?]
    · simp only [setKey, if_neg h]
      simpa [objGet, List.find?, h] using ih

theorem objGet_setKey_other (o : KvObject) (k k' : String) (v : KvLit)
    (hk : k' ≠ k) : objGet (setKey o k v) k' = objGet o k' := by
  induction o with
  | nil => simp [setKey, objGet, List.find?, hk, Ne.symm hk]
  | cons p rest ih =>
    by_cases h : p.1 = k
    · subst h
      simp [setKey, objGet, List.find?, Ne.symm hk, hk]
    · by_cases h' : p.1 = k'
      · simp [setKey, if_neg h, objGet, List.find?, h', hk, Ne.symm hk]
      · simp only [setKey, if_neg h]
        simpa [objGet, List.find?, h'] using ih

theorem flatten_eq_setKey (d : Document) :
    flatten d = setKey (setKey d.value "id" d.id) "versionstamp"
      (KvLit.str d.versionstamp) := rfl

theorem hasIdCollision_of_mem (ops : List StagedMutation) (c : String)
    (i : Nat) (v : KvObject) (hdel : StagedMutation.delOp c i ∈ ops)
    (hset : StagedMutation.setOp c i v ∈ ops) :
    hasIdCollision ops = true := by
  simp only [hasIdCollision, List.any_eq_true]
  refine ⟨StagedMutation.delOp c i, hdel, ?_⟩
  simp only [List.any_eq_true]
  exact ⟨StagedMutation.setOp c i v, hset, by simp⟩

theorem addAll_docs_length (spec : IndexSpec) :
    ∀ (vs : List KvObject) (st st' : CollectionState),
      addAll spec st vs = some st' →
      st'.docs.length = st.docs.length + vs.length := by
  intro vs
  induction vs with
  | nil =>
    intro st st' h
    simp only [addAll, Option.some.injEq] at h
    subst h
    simp
  | cons v rest ih =>
    intro st st' h
    simp only [addAll] at h
    by_cases hc : primaryCollision spec st v
    · simp [add, addWithId, hc] at h
    · simp only [add, addWithId, if_neg hc, if_pos] at h
      have hlen := ih _ _ h
      simp only [List.length_append, List.length_cons, List.length_nil] at hlen ⊢
      omega

theorem mem_indexEntriesFor (spec : IndexSpec) (k : IndexKind) (id : Nat)
    (v : KvObject) (f : String) (w : KvLit) (hf : (f, k) ∈ spec)
    (hv : objGet v f = some w) :
    (⟨f, w, id⟩ : IndexEntry) ∈ indexEntriesFor spec k id v := by
  simp only [indexEntriesFor, List.mem_filterMap]
  exact ⟨(f, k), hf, by simp [hv]⟩

theorem of_mem_indexEntriesFor (spec : IndexSpec) (k : IndexKind) (id : Nat)
    (v : KvObject) (e : IndexEntry)
    (he : e ∈ indexEntriesFor spec k id v) :
    e.ownerId = id ∧ objGet v e.field = some e.value := by
  simp only [indexEntriesFor, List.mem_filterMap] at he
  obtain ⟨fk, -, hfk⟩ := he
  by_cases hk : fk.2 = k
  · rw [if_pos hk] at hfk
    cases hv : objGet v fk.1 with
    | none => rw [hv] at hfk; simp at hfk
    | some w =>
      rw [hv] at hfk
      simp only [Option.map_some', Option.some.injEq] at hfk
      subst hfk
      exact ⟨rfl, hv⟩
  · rw [if_neg hk] at hfk
    simp at hfk

theorem primaryCollision_of_entry (spec : IndexSpec) (st : CollectionState)
    (v : KvObject) (f : String) (w : KvLit) (i : Nat)
    (hf : (f, IndexKind.primary) ∈ spec) (hv : objGet v f = some w)
    (he : (⟨f, w, i⟩ : IndexEntry) ∈ st.primaryIndex) :
    primaryCollision spec st v = true := by
  have hmatch : (match objGet v f with
      | none => false
      | some w' =>
        st.primaryIndex.any (fun e => e.field = f && e.value = w')) = true := by
    rw [hv]
    simp only [List.any_eq_true]
    exact ⟨⟨f, w, i⟩, he, by simp⟩
  simp only [primaryCollision, List.any_eq_true]
  exact ⟨(f, IndexKind.primary), hf, by simpa using hmatch⟩

theorem add_eq_of_collision (spec : IndexSpec) (st : CollectionState)
    (v : KvObject) (h : primaryCollision spec st v = true) :
    add spec st v = (⟨false, freshId st⟩, st) := by
  simp [add, addWithId, h]

theorem add_eq_of_no_collision (spec : IndexSpec) (st : CollectionState)
    (v : KvObject) (h : primaryCollision spec st v = false) :
    add spec st v = (⟨true, freshId st⟩,
      ⟨st.docs ++ [(freshId st, v)],
        st.primaryIndex ++ indexEntriesFor spec IndexKind.primary (freshId st) v,
        st.secondaryIndex
          ++ indexEntriesFor spec IndexKind.secondary (freshId st) v⟩) := by
  simp [add, addWithId, h]

theorem getMany_unbounded {α : Type} (docs : List (Nat × α)) :
    getMany ⟨none, none, none, false, none, fun _ => true⟩ docs
      = ⟨docs, none⟩ := by
  simp [getMany, inRange, cursorOrStart]

theorem sortedIds_drop {α : Type} (l : List (Nat × α)) (hs : SortedIds l)
    (i : Nat) : SortedIds (l.drop i) :=
  hs.sublist (List.drop_sublist i l)

theorem filter_ge_of_sorted {α : Type} :
    ∀ (l : List (Nat × α)), SortedIds l → ∀ (i : Nat) (hi : i < l.length),
      l.filter (fun p => decide ((l.get ⟨i, hi⟩).1 ≤ p.1)) = l.drop i := by
  intro l
  induction l with
  | nil => intro _ i hi; simp at hi
  | cons d rest ih =>
    intro hs i hi
    rcases List.pairwise_cons.mp hs with ⟨hd, htl⟩
    cases i with
    | zero =>
      have h0 : (d :: rest).get ⟨0, hi⟩ = d := rfl
      rw [h0, List.drop_zero, List.filter_cons]
      rw [if_pos (by simp)]
      congr 1
      rw [List.filter_eq_self]
      intro p hp
      simpa using le_of_lt (hd p hp)
    | succ i =>
      have hi' : i < rest.length := by
        simpa [Nat.succ_lt_succ_iff] using hi
      have h0 : (d :: rest).get ⟨i + 1, hi⟩ = rest.get ⟨i, hi'⟩ := rfl
      have hlt : d.1 < (rest.get ⟨i, hi'⟩).1 :=
        hd _ (List.get_mem rest i hi')
      rw [h0, List.drop_succ_cons, List.filter_cons]
      rw [if_neg (by simpa using not_le.mpr hlt)]
      exact ih htl i hi'

theorem filter_lt_of_sorted {α : Type} :
    ∀ (l : List (Nat × α)), SortedIds l → ∀ (j : Nat) (hj : j < l.length),
      l.filter (fun p => decide (p.1 < (l.get ⟨j, hj⟩).1)) = l.take j := by
  intro l
  induction l with
  | nil => intro _ j hj; simp at hj
  | cons d rest ih =>
    intro hs j hj
    rcases List.pairwise_cons.mp hs with ⟨hd, htl⟩
    cases j with
    | zero =>
      have h0 : (d :: rest).get ⟨0, hj⟩ = d := rfl
      rw [h0, List.take_zero, List.filter_eq_nil_iff]
      intro p hp
      rcases List.mem_cons.mp hp with h | h
      · subst h; simp
      · simpa using not_lt.mpr (le_of_lt (hd p h))
    | succ j =>
      have hj' : j < rest.length := by
        simpa [Nat.succ_lt_succ_iff] using hj
      have h0 : (d :: rest).get ⟨j + 1, hj⟩ = rest.get ⟨j, hj'⟩ := rfl
      have hlt : d.1 < (rest.get ⟨j, hj'⟩).1 :=
        hd _ (List.get_mem rest j hj')
      rw [h0, List.take_succ_cons, List.filter_cons]
      rw [if_pos (by simpa using hlt)]
      congr 1
      exact ih htl j hj'

theorem filter_ge_suffix {α : Type} :
    ∀ (l₁ : List (Nat × α)) (x : Nat × α) (l₂ : List (Nat × α)),
      SortedIds (l₁ ++ x :: l₂) →
      (l₁ ++ x :: l₂).filter (fun p => decide (x.1 ≤ p.1)) = x :: l₂ := by
  intro l₁
  induction l₁ with
  | nil =>
    intro x l₂ hs
    rcases List.pairwise_cons.mp hs with ⟨hd, htl⟩
    simp only [List.nil_append, List.filter_cons]
    rw [if_pos (by simp)]
    congr 1
    rw [List.filter_eq_self]
    intro p hp
    simpa using le_of_lt (hd p hp)
  | cons d rest ih =>
    intro x l₂ hs
    rcases List.pairwise_cons.mp hs with ⟨hd, htl⟩
    have hdx : d.1 < x.1 := hd x (by simp)
    simp only [List.cons_append, List.filter_cons]
    rw [if_neg (by simpa using not_le.mpr hdx)]
    exact ih x l₂ htl

theorem scanGo_decomp {α : Type} (pred : Nat × α → Bool) :
    ∀ (l : List (Nat × α)) (n : Nat),
      ∃ l₁ l₂, l = l₁ ++ l₂ ∧
        (scanGo pred l (n + 1)).1 = l₁.filter pred ∧
        (scanGo pred l (n + 1)).2 = nextCursor l₂ ∧
        (l₂ = [] ∨ l₁ ≠ []) := by
  intro l
  induction l with
  | nil =>
    intro n
    exact ⟨[], [], rfl, by simp [scanGo], by simp [scanGo, nextCursor],
      Or.inl rfl⟩
  | cons p rest ih =>
    intro n
    by_cases hp : pred p
    · cases n with
      | zero =>
        refine ⟨[p], rest, by simp, ?_, ?_, Or.inr (by simp)⟩
        · simp [scanGo, hp]
        · simp [scanGo, hp]
      | succ n =>
        obtain ⟨m₁, m₂, hpart, h1, h2, h3⟩ := ih n
        refine ⟨p :: m₁, m₂, by simp [hpart], ?_, ?_, Or.inr (by simp)⟩
        · simp [scanGo, hp, List.filter_cons, h1]
        · simp [scanGo, hp, h2]
    · obtain ⟨m₁, m₂, hpart, h1, h2, h3⟩ := ih n
      refine ⟨p :: m₁, m₂, by simp [hpart], ?_, ?_, Or.inr (by simp)⟩
      · simp [scanGo, hp, List.filter_cons, h1]
      · simp [scanGo, hp, h2]

theorem cursorOrStart_none_right (c : Option Nat) :
    cursorOrStart c none = c := by
  cases c <;> rfl

theorem getMany_limit_eq {α : Type} (s e : Option Nat) (n : Nat)
    (cursor : Option Nat) (pred : Nat × α → Bool) (docs : List (Nat × α)) :
    getMany ⟨s, e, some n, false, cursor, pred⟩ docs
      = ⟨(scanGo pred (docs.filter
            (fun p => inRange (cursorOrStart cursor s) e p.1)) n).1,
         (scanGo pred (docs.filter
            (fun p => inRange (cursorOrStart cursor s) e p.1)) n).2⟩ := rfl

theorem paginate_suffix {α : Type} (pred : Nat × α → Bool) (m : Nat)
    (docs : List (Nat × α)) (hs : SortedIds docs) :
    ∀ (fuel : Nat) (l₁ l₂ : List (Nat × α)) (cursor : Option Nat),
      docs = l₁ ++ l₂ → l₂.length < fuel →
      ((cursor = none ∧ l₁ = []) ∨ ∃ x t, l₂ = x :: t ∧ cursor = some x.1) →
      paginate docs pred (m + 1) fuel cursor = l₂.filter pred := by
  intro fuel
  induction fuel with
  | zero =>
    intro l₁ l₂ cursor _ hlen _
    omega
  | succ f ih =>
    intro l₁ l₂ cursor hpart hlen hcur
    have hranged : docs.filter (fun p => inRange cursor none p.1) = l₂ := by
      rcases hcur with ⟨hc, hl1⟩ | ⟨x, t, hxt, hc⟩
      · subst hc
        subst hl1
        simp only [List.nil_append] at hpart
        rw [hpart]
        simp [inRange]
      · subst hc
        have : (fun p : Nat × α => inRange (some x.1) none p.1)
            = (fun p : Nat × α => decide (x.1 ≤ p.1)) := by
          funext p
          simp [inRange]
        rw [this, hpart, hxt]
        rw [hxt] at hpart
        exact filter_ge_suffix l₁ x t (hpart ▸ hs)
    have hgm : getMany ⟨none, none, some (m + 1), false, cursor, pred⟩ docs
        = ⟨(scanGo pred l₂ (m + 1)).1, (scanGo pred l₂ (m + 1)).2⟩ := by
      rw [getMany_limit_eq, cursorOrStart_none_right, hranged]
    obtain ⟨m₁, m₂, hm, h1, h2, h3⟩ := scanGo_decomp pred l₂ m
    simp only [paginate, hgm, h2]
    cases m₂ with
    | nil =>
      simp only [nextCursor]
      rw [h1]
      rw [List.append_nil] at hm
      rw [hm]
    | cons y t₂ =>
      have hm₁ne : m₁ ≠ [] := by
        rcases h3 with h | h
        · simp at h
        · exact h
      simp only [nextCursor]
      rw [h1]
      have hrec : paginate docs pred (m + 1) f (some y.1)
          = (y :: t₂).filter pred := by
        refine ih (l₁ ++ m₁) (y :: t₂) (some y.1) ?_ ?_ ?_
        · rw [hpart, hm, List.append_assoc]
        · have hm1len : 1 ≤ m₁.length := by
            rcases List.length_pos.mpr hm₁ne with h
            omega
          have : l₂.length = m₁.length + (t₂.length + 1) := by
            rw [hm]
            simp
          simp only [List.length_cons]
          omega
        · exact Or.inr ⟨y, t₂, rfl, rfl⟩
      rw [hrec, ← List.filter_append, ← hm]

theorem le_foldr_max : ∀ (l : List Nat) (a : Nat), a ∈ l → a ≤ l.foldr max 0 := by
  intro l
  induction l with
  | nil => intro a h; simp at h
  | cons b t ih =>
    intro a h
    rcases List.mem_cons.mp h with h | h
    · subst h
      simp only [List.foldr_cons]
      exact le_max_left _ _
    · refine le_trans (ih a h) ?_
      simp only [List.foldr_cons]
      exact le_max_right _ _

theorem freshId_gt (st : CollectionState) : ∀ p ∈ st.docs, p.1 < freshId st := by
  intro p hp
  have hm : p.1 ∈ st.docs.map (·.1) := List.mem_map_of_mem _ hp
  have := le_foldr_max _ _ hm
  unfold freshId
  omega

theorem find?_unique {α : Type} (l : List α) (p : α → Bool) (a : α)
    (hex : ∃ x ∈ l, p x) (huniq : ∀ x ∈ l, p x → x = a) :
    l.find? p = some a := by
  induction l with
  | nil =>
    obtain ⟨x, hx, -⟩ := hex
    simp at hx
  | cons b t ih =>
    by_cases hb : p b
    · rw [List.find?_cons_of_pos _ hb]
      exact congrArg some (huniq b (by simp) hb)
    · rw [List.find?_cons_of_neg _ hb]
      apply ih
      · obtain ⟨x, hx, hpx⟩ := hex
        rcases List.mem_cons.mp hx with h | h
        · subst h; exact absurd hpx hb
        · exact ⟨x, h, hpx⟩
      · intro x hx hpx
        exact huniq x (List.mem_cons_of_mem _ hx) hpx

theorem find?_docs_fresh (st : CollectionState) :
    st.docs.find? (fun p => p.1 = freshId st) = none := by
  rw [List.find?_eq_none]
  intro p hp hpp
  simp only [decide_eq_true_eq] at hpp
  exact absurd hpp (Nat.ne_of_lt (freshId_gt st p hp))

end Kvdex

/-- C7: parsing the id back out of the composite document key returns that
id, and the composite key is the collection root with the id appended as
the final key part: `getDocumentId (getDocumentKey root id) = some id`
and `getDocumentKey root id = root ++ [id]`. -/
theorem getDocumentId_getDocumentKey (root : Kvdex.KvKey) (id : Kvdex.KvKeyPart) :
    Kvdex.getDocumentId (Kvdex.getDocumentKey root id) = some id ∧
      Kvdex.getDocumentKey root id = root ++ [id] := by
  refine ⟨?_, rfl⟩
  simp [Kvdex.getDocumentId, Kvdex.getDocumentKey]

/-- C9: `flatten` yields an object whose `id` and `versionstamp` fields
come from the document metadata — the metadata spread overrides
same-named first-layer value entries — while every other first-layer
value entry appears unchanged in the output. -/
theorem flatten_metadata_overrides (d : Kvdex.Document) :
    Kvdex.objGet (Kvdex.flatten d) "id" = some d.id ∧
      Kvdex.objGet (Kvdex.flatten d) "versionstamp"
        = some (Kvdex.KvLit.str d.versionstamp) ∧
      ∀ k : String, k ≠ "id" → k ≠ "versionstamp" →
        Kvdex.objGet (Kvdex.flatten d) k = Kvdex.objGet d.value k := by
  rw [Kvdex.flatten_eq_setKey]
  refine ⟨?_, ?_, ?_⟩
  · rw [Kvdex.objGet_setKey_other _ _ _ _ (by decide)]
    exact Kvdex.objGet_setKey_same _ _ _
  · exact Kvdex.objGet_setKey_same _ _ _
  · intro k hki hkv
    rw [Kvdex.objGet_setKey_other _ _ _ _ hkv,
      Kvdex.objGet_setKey_other _ _ _ _ hki]

/-- Witness for C9 at a concrete document whose value shadows both
metadata keys. -/
theorem flatten_metadata_overrides_witness :
    Kvdex.objGet (Kvdex.flatten ⟨Kvdex.KvLit.num 7, "vs",
        [("id", Kvdex.KvLit.num 99), ("versionstamp", Kvdex.KvLit.str "old"),
         ("a", Kvdex.KvLit.str "x")]⟩) "id" = some (Kvdex.KvLit.num 7) ∧
      Kvdex.objGet (Kvdex.flatten ⟨Kvdex.KvLit.num 7, "vs",
        [("id", Kvdex.KvLit.num 99), ("versionstamp", Kvdex.KvLit.str "old"),
         ("a", Kvdex.KvLit.str "x")]⟩) "versionstamp"
        = some (Kvdex.KvLit.str "vs") ∧
      Kvdex.objGet (Kvdex.flatten ⟨Kvdex.KvLit.num 7, "vs",
        [("id", Kvdex.KvLit.num 99), ("versionstamp", Kvdex.KvLit.str "old"),
         ("a", Kvdex.KvLit.str "x")]⟩) "a"
        = Kvdex.objGet [("id", Kvdex.KvLit.num 99),
            ("versionstamp", Kvdex.KvLit.str "old"),
            ("a", Kvdex.KvLit.str "x")] "a" := by
  obtain ⟨h1, h2, h3⟩ := flatten_metadata_overrides ⟨Kvdex.KvLit.num 7, "vs",
    [("id", Kvdex.KvLit.num 99), ("versionstamp", Kvdex.KvLit.str "old"),
     ("a", Kvdex.KvLit.str "x")]⟩
  exact ⟨h1, h2, h3 "a" (by decide) (by decide)⟩

/-- C2: an atomic operation chain that stages both a `delete(id)` and a
`set` of the same document id in the same collection is rejected by
`commit` during local validation, before submission to the store, for any
values, checks and staging order: the result is not ok and the store is
unchanged. -/
theorem commit_rejects_id_collision (vs : Nat) (a : Kvdex.AtomicOperation)
    (store : Kvdex.Store) (c : String) (i : Nat) (v : Kvdex.KvObject)
    (hdel : Kvdex.StagedMutation.delOp c i ∈ a.ops)
    (hset : Kvdex.StagedMutation.setOp c i v ∈ a.ops) :
    Kvdex.commit vs a store = (false, store) := by
  have hcol := Kvdex.hasIdCollision_of_mem a.ops c i v hdel hset
  simp [Kvdex.commit, hcol]

/-- Witness for C2: a concrete chain staging `set("users", 1)` then
`delete("users", 1)` is rejected with the store untouched. -/
theorem commit_rejects_id_collision_witness :
    Kvdex.commit 0
        (Kvdex.atomicDelete
          (Kvdex.atomicSet Kvdex.atomicEmpty "users" 1 []) "users" 1)
        [] = (false, []) :=
  commit_rejects_id_collision 0
    (Kvdex.atomicDelete (Kvdex.atomicSet Kvdex.atomicEmpty "users" 1 [])
      "users" 1)
    [] "users" 1 [] (by decide) (by decide)

/-- C8: the wrapped handler id of an enqueued message is deterministically
derived from the collection root key and the optional topic, and a
listener's dispatch wrapper invokes its callback exactly for messages
whose handler id matches its own `(root, topic)` derivation — in
particular a listener on the same collection with a different (or absent)
topic is never invoked for the message. -/
theorem enqueue_dispatch_law (root root' : Kvdex.KvKey)
    (topic topic' : Option String) (data : String) :
    (Kvdex.enqueue root topic data).handlerId
        = Kvdex.createHandlerId root topic ∧
      Kvdex.dispatch root' topic' (Kvdex.enqueue root topic data)
        = if root' = root ∧ topic' = topic then some data else none := by
  refine ⟨rfl, ?_⟩
  by_cases h1 : root' = root
  · by_cases h2 : topic' = topic
    · subst h1; subst h2
      simp [Kvdex.dispatch, Kvdex.enqueue, Kvdex.createHandlerId]
    · rw [if_neg (fun hc => h2 hc.2)]
      simp only [Kvdex.dispatch, Kvdex.enqueue, Kvdex.createHandlerId]
      rw [if_neg]
      intro hc
      exact h2 (congrArg Prod.snd hc).symm
  · rw [if_neg (fun hc => h1 hc.1)]
    simp only [Kvdex.dispatch, Kvdex.enqueue, Kvdex.createHandlerId]
    rw [if_neg]
    intro hc
    exact h1 (congrArg Prod.fst hc).symm

/-- C10: `count` returns exactly the number of stored documents — `0` on
the empty collection, and `N` after a successful `addMany` of `N`
documents into the empty collection. -/
theorem count_addMany (spec : Kvdex.IndexSpec) (vs : List Kvdex.KvObject)
    (st' : Kvdex.CollectionState)
    (h : Kvdex.addMany spec Kvdex.emptyCollection vs = (true, st')) :
    Kvdex.count Kvdex.emptyCollection = 0 ∧ Kvdex.count st' = vs.length := by
  refine ⟨rfl, ?_⟩
  unfold Kvdex.addMany at h
  cases haa : Kvdex.addAll spec Kvdex.emptyCollection vs with
  | none => rw [haa] at h; simp at h
  | some st'' =>
    rw [haa] at h
    simp only [Prod.mk.injEq] at h
    obtain ⟨-, h2⟩ := h
    subst h2
    have := Kvdex.addAll_docs_length spec vs Kvdex.emptyCollection st'' haa
    simpa [Kvdex.count, Kvdex.emptyCollection] using this

/-- Witness for C10: adding two documents to the empty collection with an
empty index specification yields a collection of count `2`. -/
theorem count_addMany_witness :
    Kvdex.count Kvdex.emptyCollection = 0 ∧
      Kvdex.count ⟨[(1, []), (2, [])], [], []⟩ = 2 :=
  count_addMany [] [[], []] ⟨[(1, []), (2, [])], [], []⟩ (by decide)

/-- C1: with a primary-indexed field declared, adding a second document
whose value collides on that field with a successfully added document
fails with `ok = false`, and the failed commit creates or alters no index
entry and no document — the collection state is unchanged. -/
theorem add_primary_collision_rejected (spec : Kvdex.IndexSpec)
    (st : Kvdex.CollectionState) (v₁ v₂ : Kvdex.KvObject) (f : String)
    (w : Kvdex.KvLit) (hf : (f, Kvdex.IndexKind.primary) ∈ spec)
    (h1 : Kvdex.objGet v₁ f = some w) (h2 : Kvdex.objGet v₂ f = some w)
    (hok : (Kvdex.add spec st v₁).1.ok = true) :
    (Kvdex.add spec (Kvdex.add spec st v₁).2 v₂).1.ok = false ∧
      (Kvdex.add spec (Kvdex.add spec st v₁).2 v₂).2
        = (Kvdex.add spec st v₁).2 := by
  by_cases hc : Kvdex.primaryCollision spec st v₁
  · simp [Kvdex.add, Kvdex.addWithId, hc] at hok
  · have hmem : (⟨f, w, Kvdex.freshId st⟩ : Kvdex.IndexEntry)
        ∈ (Kvdex.add spec st v₁).2.primaryIndex := by
      rw [Kvdex.add_eq_of_no_collision spec st v₁ (by simpa using hc)]
      exact List.mem_append_right _
        (Kvdex.mem_indexEntriesFor spec Kvdex.IndexKind.primary
          (Kvdex.freshId st) v₁ f w hf h1)
    have hcol2 : Kvdex.primaryCollision spec (Kvdex.add spec st v₁).2 v₂
        = true :=
      Kvdex.primaryCollision_of_entry spec (Kvdex.add spec st v₁).2 v₂ f w
        (Kvdex.freshId st) hf h2 hmem
    rw [Kvdex.add_eq_of_collision spec (Kvdex.add spec st v₁).2 v₂ hcol2]
    exact ⟨rfl, rfl⟩

/-- Witness for C1: with `b` declared primary, adding `{b: "x"}` twice to
the empty collection fails the second time with the state unchanged. -/
theorem add_primary_collision_rejected_witness :
    (Kvdex.add [("b", Kvdex.IndexKind.primary)]
        (Kvdex.add [("b", Kvdex.IndexKind.primary)] Kvdex.emptyCollection
          [("b", Kvdex.KvLit.str "x")]).2
        [("b", Kvdex.KvLit.str "x")]).1.ok = false ∧
      (Kvdex.add [("b", Kvdex.IndexKind.primary)]
          (Kvdex.add [("b", Kvdex.IndexKind.primary)] Kvdex.emptyCollection
            [("b", Kvdex.KvLit.str "x")]).2
          [("b", Kvdex.KvLit.str "x")]).2
        = (Kvdex.add [("b", Kvdex.IndexKind.primary)] Kvdex.emptyCollection
            [("b", Kvdex.KvLit.str "x")]).2 :=
  add_primary_collision_rejected [("b", Kvdex.IndexKind.primary)]
    Kvdex.emptyCollection [("b", Kvdex.KvLit.str "x")]
    [("b", Kvdex.KvLit.str "x")] "b" (Kvdex.KvLit.str "x") (by decide)
    (by decide) (by decide) (by decide)

/-- C3: for a fixed document set and fixed range bounds (and filter),
`getMany` with `reverse` is the element-wise reverse of the forward
`getMany` result; order is deterministic for a fixed range and direction
since the enumeration is a pure function of the collection state and
options. -/
theorem getMany_reverse_law {α : Type} (docs : List (Nat × α))
    (s e : Option Nat) (pred : Nat × α → Bool) :
    (Kvdex.getMany ⟨s, e, none, true, none, pred⟩ docs).result
      = ((Kvdex.getMany ⟨s, e, none, false, none, pred⟩ docs).result).reverse := by
  simp [Kvdex.getMany, List.filter_reverse]

/-- C4: for the ordered result set `R` of an unbounded scan over a
collection whose ids are in key order, `getMany` with `startId = R[i].id`
returns exactly `R[i:]`, with `endId = R[j].id` returns exactly `R[:j]`,
and with both returns exactly `R[i:j]` — start inclusive, end
exclusive. -/
theorem getMany_range_law {α : Type} (docs R : List (Nat × α))
    (hs : Kvdex.SortedIds docs)
    (hR : (Kvdex.getMany ⟨none, none, none, false, none,
        fun _ => true⟩ docs).result = R)
    (i j : Nat) (pi pj : Nat × α) (hij : i ≤ j)
    (hi : R[i]? = some pi) (hj : R[j]? = some pj) :
    (Kvdex.getMany ⟨some pi.1, none, none, false, none,
        fun _ => true⟩ docs).result = R.drop i ∧
      (Kvdex.getMany ⟨none, some pj.1, none, false, none,
          fun _ => true⟩ docs).result = R.take j ∧
      (Kvdex.getMany ⟨some pi.1, some pj.1, none, false, none,
          fun _ => true⟩ docs).result = (R.drop i).take (j - i) := by
  have hRdocs : R = docs := by
    rw [← hR, Kvdex.getMany_unbounded]
  subst hRdocs
  obtain ⟨hilen, hieq⟩ := List.getElem?_eq_some_iff.mp hi
  obtain ⟨hjlen, hjeq⟩ := List.getElem?_eq_some_iff.mp hj
  have hgei : R.filter (fun p => decide (pi.1 ≤ p.1)) = R.drop i := by
    have hpi : R.get ⟨i, hilen⟩ = pi := by simpa using hieq
    rw [← hpi]
    exact Kvdex.filter_ge_of_sorted R hs i hilen
  have hltj : R.filter (fun p => decide (p.1 < pj.1)) = R.take j := by
    have hpj : R.get ⟨j, hjlen⟩ = pj := by simpa using hjeq
    rw [← hpj]
    exact Kvdex.filter_lt_of_sorted R hs j hjlen
  refine ⟨?_, ?_, ?_⟩
  · have e1 : (Kvdex.getMany ⟨some pi.1, none, none, false, none,
        fun _ => true⟩ R).result = R.filter (fun p => decide (pi.1 ≤ p.1)) := by
      simp [Kvdex.getMany, Kvdex.inRange, Kvdex.cursorOrStart]
    rw [e1, hgei]
  · have e2 : (Kvdex.getMany ⟨none, some pj.1, none, false, none,
        fun _ => true⟩ R).result = R.filter (fun p => decide (p.1 < pj.1)) := by
      simp [Kvdex.getMany, Kvdex.inRange, Kvdex.cursorOrStart]
    rw [e2, hltj]
  · have e3 : (Kvdex.getMany ⟨some pi.1, some pj.1, none, false, none,
        fun _ => true⟩ R).result
        = R.filter (fun p => decide (pi.1 ≤ p.1) && decide (p.1 < pj.1)) := by
      simp [Kvdex.getMany, Kvdex.inRange, Kvdex.cursorOrStart]
    have hcomb := @List.filter_filter _ (fun p : Nat × α => decide (p.1 < pj.1))
      (fun p : Nat × α => decide (pi.1 ≤ p.1)) R
    have hd2 : (R.drop i)[j - i]? = some pj := by
      rw [List.getElem?_drop, show i + (j - i) = j from by omega]
      exact hj
    obtain ⟨hlen2, heq2⟩ := List.getElem?_eq_some_iff.mp hd2
    have hfin : (R.drop i).filter (fun p => decide (p.1 < pj.1))
        = (R.drop i).take (j - i) := by
      have hpj2 : (R.drop i).get ⟨j - i, hlen2⟩ = pj := by simpa using heq2
      rw [← hpj2]
      exact Kvdex.filter_lt_of_sorted (R.drop i)
        (Kvdex.sortedIds_drop R hs i) (j - i) hlen2
    calc (Kvdex.getMany ⟨some pi.1, some pj.1, none, false, none,
            fun _ => true⟩ R).result
        = R.filter (fun p => decide (pi.1 ≤ p.1) && decide (p.1 < pj.1)) := e3
      _ = R.filter (fun p => decide (p.1 < pj.1) && decide (pi.1 ≤ p.1)) := by
          simp only [Bool.and_comm]
      _ = (R.filter (fun p => decide (pi.1 ≤ p.1))).filter
            (fun p => decide (p.1 < pj.1)) := hcomb.symm
      _ = (R.drop i).filter (fun p => decide (p.1 < pj.1)) := by rw [hgei]
      _ = (R.drop i).take (j - i) := hfin

/-- Witness for C4 on a concrete three-document collection with `i = 1`,
`j = 2`. -/
theorem getMany_range_law_witness :
    (Kvdex.getMany ⟨some 2, none, none, false, none, fun _ => true⟩
        [(1, ([] : Kvdex.KvObject)), (2, []), (3, [])]).result
      = [(1, ([] : Kvdex.KvObject)), (2, []), (3, [])].drop 1 ∧
      (Kvdex.getMany ⟨none, some 3, none, false, none, fun _ => true⟩
          [(1, ([] : Kvdex.KvObject)), (2, []), (3, [])]).result
        = [(1, ([] : Kvdex.KvObject)), (2, []), (3, [])].take 2 ∧
      (Kvdex.getMany ⟨some 2, some 3, none, false, none, fun _ => true⟩
          [(1, ([] : Kvdex.KvObject)), (2, []), (3, [])]).result
        = ([(1, ([] : Kvdex.KvObject)), (2, []), (3, [])].drop 1).take (2 - 1) :=
  getMany_range_law [(1, ([] : Kvdex.KvObject)), (2, []), (3, [])]
    [(1, ([] : Kvdex.KvObject)), (2, []), (3, [])] (by decide) (by decide)
    1 2 (2, []) (3, []) (by decide) (by decide) (by decide)

/-- C5: repeatedly calling `getMany` with a limit and resuming from the
returned cursor until exhaustion yields, in aggregate, exactly the same
documents as a single unpaged `getMany`; `findBySecondaryIndex` likewise
returns identical results whether its index-prefix scan is paginated or
unpaged (`findByPrimaryIndex` reads one entry and takes no limit). -/
theorem pagination_aggregates {α : Type} (docs : List (Nat × α))
    (pred : Nat × α → Bool) (m : Nat) (hs : Kvdex.SortedIds docs)
    (st : Kvdex.CollectionState) (f : String) (w : Kvdex.KvLit)
    (hs2 : Kvdex.SortedIds
      ((st.secondaryIndex.filter (fun e => e.field = f && e.value = w)).map
        (fun e => (e.ownerId, e)))) :
    Kvdex.paginate docs pred (m + 1) (docs.length + 1) none
        = (Kvdex.getMany ⟨none, none, none, false, none, pred⟩ docs).result ∧
      Kvdex.findBySecondaryIndexPaged st f w (m + 1)
          ((st.secondaryIndex.filter
            (fun e => e.field = f && e.value = w)).length + 1)
        = Kvdex.findBySecondaryIndex st f w := by
  constructor
  · have hagg := Kvdex.paginate_suffix pred m docs hs (docs.length + 1)
      [] docs none (by simp) (by omega) (Or.inl ⟨rfl, rfl⟩)
    rw [hagg]
    simp [Kvdex.getMany, Kvdex.inRange, Kvdex.cursorOrStart]
  · have hkeyed : Kvdex.SortedIds
        ((st.secondaryIndex.filter
          (fun e => e.field = f && e.value = w)).map
            (fun e => (e.ownerId, e))) := hs2
    have hagg := Kvdex.paginate_suffix (fun _ => true) m
      ((st.secondaryIndex.filter
        (fun e => e.field = f && e.value = w)).map
          (fun e => (e.ownerId, e))) hkeyed
      ((st.secondaryIndex.filter
        (fun e => e.field = f && e.value = w)).length + 1)
      [] ((st.secondaryIndex.filter
        (fun e => e.field = f && e.value = w)).map
          (fun e => (e.ownerId, e))) none
      (by simp) (by simp) (Or.inl ⟨rfl, rfl⟩)
    unfold Kvdex.findBySecondaryIndexPaged
    rw [hagg]
    rw [List.filter_eq_self.mpr (fun _ _ => rfl)]
    rw [List.filterMap_map]
    rfl

/-- Witness for C5 on a two-document collection paged with limit `1` and
a one-entry secondary index prefix. -/
theorem pagination_aggregates_witness :
    Kvdex.paginate [(1, ([] : Kvdex.KvObject)), (2, [])] (fun _ => true)
          (0 + 1) ([(1, ([] : Kvdex.KvObject)), (2, [])].length + 1) none
        = (Kvdex.getMany ⟨none, none, none, false, none, fun _ => true⟩
            [(1, ([] : Kvdex.KvObject)), (2, [])]).result ∧
      Kvdex.findBySecondaryIndexPaged
          ⟨[(1, [("s", Kvdex.KvLit.num 5)])], [],
            [⟨"s", Kvdex.KvLit.num 5, 1⟩]⟩ "s" (Kvdex.KvLit.num 5) (0 + 1)
          ((List.filter (fun e => e.field = "s" && e.value = Kvdex.KvLit.num 5)
            (⟨[(1, [("s", Kvdex.KvLit.num 5)])], [],
              [⟨"s", Kvdex.KvLit.num 5, 1⟩]⟩ :
                Kvdex.CollectionState).secondaryIndex).length + 1)
        = Kvdex.findBySecondaryIndex
            ⟨[(1, [("s", Kvdex.KvLit.num 5)])], [],
              [⟨"s", Kvdex.KvLit.num 5, 1⟩]⟩ "s" (Kvdex.KvLit.num 5) :=
  pagination_aggregates [(1, ([] : Kvdex.KvObject)), (2, [])]
    (fun _ => true) 0 (by decide)
    ⟨[(1, [("s", Kvdex.KvLit.num 5)])], [], [⟨"s", Kvdex.KvLit.num 5, 1⟩]⟩
    "s" (Kvdex.KvLit.num 5) (by decide)

/-- C6: after a successful `add` of a document value into a well-formed
collection — for every declared index field absent on the value, the add
creates no index entry for that field (the field's entry lists are
unchanged) and primary/secondary lookups on that field never return the
new document; the new document still appears in the unfiltered scan; and
for every declared index field the value does carry, the document is
findable by primary lookup (exactly) and by secondary lookup
(membership). -/
theorem optional_index_field (spec : Kvdex.IndexSpec)
    (st : Kvdex.CollectionState) (v : Kvdex.KvObject)
    (hwf : Kvdex.WF st) (hok : (Kvdex.add spec st v).1.ok = true) :
    (∀ f k, (f, k) ∈ spec → Kvdex.objGet v f = none →
      ((Kvdex.add spec st v).2.primaryIndex.filter (fun e => e.field = f)
          = st.primaryIndex.filter (fun e => e.field = f) ∧
        (Kvdex.add spec st v).2.secondaryIndex.filter (fun e => e.field = f)
          = st.secondaryIndex.filter (fun e => e.field = f)) ∧
      (∀ w, Kvdex.findByPrimaryIndex (Kvdex.add spec st v).2 f w
          ≠ some (Kvdex.freshId st, v)) ∧
      (∀ w, (Kvdex.freshId st, v)
          ∉ Kvdex.findBySecondaryIndex (Kvdex.add spec st v).2 f w)) ∧
    (Kvdex.freshId st, v) ∈ (Kvdex.getMany ⟨none, none, none, false, none,
        fun _ => true⟩ (Kvdex.add spec st v).2.docs).result ∧
    (∀ g w, (g, Kvdex.IndexKind.primary) ∈ spec →
      Kvdex.objGet v g = some w →
      Kvdex.findByPrimaryIndex (Kvdex.add spec st v).2 g w
        = some (Kvdex.freshId st, v)) ∧
    (∀ g w, (g, Kvdex.IndexKind.secondary) ∈ spec →
      Kvdex.objGet v g = some w →
      (Kvdex.freshId st, v)
        ∈ Kvdex.findBySecondaryIndex (Kvdex.add spec st v).2 g w) := by
  by_cases hc : Kvdex.primaryCollision spec st v
  · rw [Kvdex.add_eq_of_collision spec st v hc] at hok
    simp at hok
  · have hst' := Kvdex.add_eq_of_no_collision spec st v
      (by simpa using hc)
    have hdocs : (Kvdex.add spec st v).2.docs
        = st.docs ++ [(Kvdex.freshId st, v)] := by rw [hst']
    have hpri : (Kvdex.add spec st v).2.primaryIndex
        = st.primaryIndex ++ Kvdex.indexEntriesFor spec
            Kvdex.IndexKind.primary (Kvdex.freshId st) v := by rw [hst']
    have hsec : (Kvdex.add spec st v).2.secondaryIndex
        = st.secondaryIndex ++ Kvdex.indexEntriesFor spec
            Kvdex.IndexKind.secondary (Kvdex.freshId st) v := by rw [hst']
    refine ⟨?_, ?_, ?_, ?_⟩
    · intro f k hf hnone
      have hnew : ∀ kd : Kvdex.IndexKind,
          ∀ e ∈ Kvdex.indexEntriesFor spec kd (Kvdex.freshId st) v,
            ¬ e.field = f := by
        intro kd e he hef
        obtain ⟨-, hev⟩ :=
          Kvdex.of_mem_indexEntriesFor spec kd (Kvdex.freshId st) v e he
        rw [hef, hnone] at hev
        exact Option.noConfusion hev
      refine ⟨⟨?_, ?_⟩, ?_, ?_⟩
      · rw [hpri, List.filter_append]
        have hz : (Kvdex.indexEntriesFor spec Kvdex.IndexKind.primary
              (Kvdex.freshId st) v).filter (fun e => e.field = f) = [] :=
          List.filter_eq_nil_iff.mpr
            (fun e he => by simpa using hnew Kvdex.IndexKind.primary e he)
        rw [hz, List.append_nil]
      · rw [hsec, List.filter_append]
        have hz : (Kvdex.indexEntriesFor spec Kvdex.IndexKind.secondary
              (Kvdex.freshId st) v).filter (fun e => e.field = f) = [] :=
          List.filter_eq_nil_iff.mpr
            (fun e he => by simpa using hnew Kvdex.IndexKind.secondary e he)
        rw [hz, List.append_nil]
      · intro w hcontra
        unfold Kvdex.findByPrimaryIndex at hcontra
        cases hfind : ((Kvdex.add spec st v).2.primaryIndex.find?
            (fun e => e.field = f && e.value = w)) with
        | none =>
          rw [hfind] at hcontra
          exact Option.noConfusion hcontra
        | some e =>
          rw [hfind] at hcontra
          have hpe := List.find?_some hfind
          simp only [Bool.and_eq_true, decide_eq_true_eq] at hpe
          have hmem := List.mem_of_find?_eq_some hfind
          rw [hpri] at hmem
          have hoid := List.find?_some hcontra
          simp only [decide_eq_true_eq] at hoid
          rcases List.mem_append.mp hmem with hold | hnew'
          · obtain ⟨p, hp, hpid⟩ := hwf.1 e hold
            exact absurd (hpid.trans hoid.symm)
              (Nat.ne_of_lt (Kvdex.freshId_gt st p hp))
          · exact hnew Kvdex.IndexKind.primary e hnew' hpe.1
      · intro w hmem2
        unfold Kvdex.findBySecondaryIndex at hmem2
        rw [List.mem_filterMap] at hmem2
        obtain ⟨e, hefil, hederef⟩ := hmem2
        obtain ⟨hemem, hpe⟩ := List.mem_filter.mp hefil
        simp only [Bool.and_eq_true, decide_eq_true_eq] at hpe
        have hoid := List.find?_some hederef
        simp only [decide_eq_true_eq] at hoid
        rw [hsec] at hemem
        rcases List.mem_append.mp hemem with hold | hnew'
        · obtain ⟨p, hp, hpid⟩ := hwf.2 e hold
          exact absurd (hpid.trans hoid.symm)
            (Nat.ne_of_lt (Kvdex.freshId_gt st p hp))
        · exact hnew Kvdex.IndexKind.secondary e hnew' hpe.1
    · simp only [Kvdex.getMany_unbounded]
      rw [hdocs]
      exact List.mem_append_right _ (by simp)
    · intro g w hg hv
      unfold Kvdex.findByPrimaryIndex
      have hnoneold : st.primaryIndex.find?
          (fun e => e.field = g && e.value = w) = none := by
        rw [List.find?_eq_none]
        intro e hee hpe2
        simp only [Bool.and_eq_true, decide_eq_true_eq] at hpe2
        have heq : e = (⟨g, w, e.ownerId⟩ : Kvdex.IndexEntry) := by
          cases e
          simp_all
        rw [heq] at hee
        exact hc (Kvdex.primaryCollision_of_entry spec st v g w
          e.ownerId hg hv hee)
      have hfind : (Kvdex.add spec st v).2.primaryIndex.find?
          (fun e => e.field = g && e.value = w)
          = some ⟨g, w, Kvdex.freshId st⟩ := by
        rw [hpri, List.find?_append, hnoneold, Option.none_or]
        apply Kvdex.find?_unique
        · exact ⟨⟨g, w, Kvdex.freshId st⟩,
            Kvdex.mem_indexEntriesFor spec Kvdex.IndexKind.primary
              (Kvdex.freshId st) v g w hg hv, by simp⟩
        · intro e he hpe2
          obtain ⟨hid, hval⟩ := Kvdex.of_mem_indexEntriesFor spec
            Kvdex.IndexKind.primary (Kvdex.freshId st) v e he
          simp only [Bool.and_eq_true, decide_eq_true_eq] at hpe2
          cases e
          simp_all
      rw [hfind]
      show (Kvdex.add spec st v).2.docs.find?
          (fun p => p.1 = Kvdex.freshId st) = some (Kvdex.freshId st, v)
      rw [hdocs, List.find?_append, Kvdex.find?_docs_fresh st,
        Option.none_or]
      simp
    · intro g w hg hv
      unfold Kvdex.findBySecondaryIndex
      rw [List.mem_filterMap]
      refine ⟨⟨g, w, Kvdex.freshId st⟩, ?_, ?_⟩
      · rw [hsec]
        exact List.mem_filter.mpr
          ⟨List.mem_append_right _
            (Kvdex.mem_indexEntriesFor spec Kvdex.IndexKind.secondary
              (Kvdex.freshId st) v g w hg hv), by simp⟩
      · show (Kvdex.add spec st v).2.docs.find?
            (fun p => p.1 = Kvdex.freshId st) = some (Kvdex.freshId st, v)
        rw [hdocs, List.find?_append, Kvdex.find?_docs_fresh st,
          Option.none_or]
        simp

/-- Witness for C6 mirroring the optional-indices test: `optPrimary` is
declared primary but absent on the added value, while `oblPrimary`
(primary) and `optSecondary` (secondary) are present. -/
theorem optional_index_field_witness :
    ((Kvdex.add [("oblPrimary", Kvdex.IndexKind.primary),
          ("optPrimary", Kvdex.IndexKind.primary),
          ("optSecondary", Kvdex.IndexKind.secondary)]
        Kvdex.emptyCollection
        [("oblPrimary", Kvdex.KvLit.str "o1"),
          ("optSecondary", Kvdex.KvLit.num 20)]).2.primaryIndex.filter
          (fun e => e.field = "optPrimary")
      = Kvdex.emptyCollection.primaryIndex.filter
          (fun e => e.field = "optPrimary")) ∧
    (Kvdex.findByPrimaryIndex
        (Kvdex.add [("oblPrimary", Kvdex.IndexKind.primary),
            ("optPrimary", Kvdex.IndexKind.primary),
            ("optSecondary", Kvdex.IndexKind.secondary)]
          Kvdex.emptyCollection
          [("oblPrimary", Kvdex.KvLit.str "o1"),
            ("optSecondary", Kvdex.KvLit.num 20)]).2
        "optPrimary" (Kvdex.KvLit.str "nope")
      ≠ some (Kvdex.freshId Kvdex.emptyCollection,
          [("oblPrimary", Kvdex.KvLit.str "o1"),
            ("optSecondary", Kvdex.KvLit.num 20)])) ∧
    ((Kvdex.freshId Kvdex.emptyCollection,
        ([("oblPrimary", Kvdex.KvLit.str "o1"),
          ("optSecondary", Kvdex.KvLit.num 20)] : Kvdex.KvObject))
      ∈ (Kvdex.getMany ⟨none, none, none, false, none, fun _ => true⟩
          (Kvdex.add [("oblPrimary", Kvdex.IndexKind.primary),
              ("optPrimary", Kvdex.IndexKind.primary),
              ("optSecondary", Kvdex.IndexKind.secondary)]
            Kvdex.emptyCollection
            [("oblPrimary", Kvdex.KvLit.str "o1"),
              ("optSecondary", Kvdex.KvLit.num 20)]).2.docs).result) ∧
    (Kvdex.findByPrimaryIndex
        (Kvdex.add [("oblPrimary", Kvdex.IndexKind.primary),
            ("optPrimary", Kvdex.IndexKind.primary),
            ("optSecondary", Kvdex.IndexKind.secondary)]
          Kvdex.emptyCollection
          [("oblPrimary", Kvdex.KvLit.str "o1"),
            ("optSecondary", Kvdex.KvLit.num 20)]).2
        "oblPrimary" (Kvdex.KvLit.str "o1")
      = some (Kvdex.freshId Kvdex.emptyCollection,
          [("oblPrimary", Kvdex.KvLit.str "o1"),
            ("optSecondary", Kvdex.KvLit.num 20)])) ∧
    ((Kvdex.freshId Kvdex.emptyCollection,
        ([("oblPrimary", Kvdex.KvLit.str "o1"),
          ("optSecondary", Kvdex.KvLit.num 20)] : Kvdex.KvObject))
      ∈ Kvdex.findBySecondaryIndex
          (Kvdex.add [("oblPrimary", Kvdex.IndexKind.primary),
              ("optPrimary", Kvdex.IndexKind.primary),
              ("optSecondary", Kvdex.IndexKind.secondary)]
            Kvdex.emptyCollection
            [("oblPrimary", Kvdex.KvLit.str "o1"),
              ("optSecondary", Kvdex.KvLit.num 20)]).2
          "optSecondary" (Kvdex.KvLit.num 20)) := by
  obtain ⟨h1, h2, h3, h4⟩ := optional_index_field
    [("oblPrimary", Kvdex.IndexKind.primary),
      ("optPrimary", Kvdex.IndexKind.primary),
      ("optSecondary", Kvdex.IndexKind.secondary)]
    Kvdex.emptyCollection
    [("oblPrimary", Kvdex.KvLit.str "o1"),
      ("optSecondary", Kvdex.KvLit.num 20)]
    (by decide) (by decide)
  obtain ⟨⟨ha, -⟩, hb, -⟩ := h1 "optPrimary" Kvdex.IndexKind.primary
    (by decide) (by decide)
  exact ⟨ha, hb (Kvdex.KvLit.str "nope"), h2,
    h3 "oblPrimary" (Kvdex.KvLit.str "o1") (by decide) (by decide),
    h4 "optSecondary" (Kvdex.KvLit.num 20) (by decide) (by decide)⟩
